import Mathlib

/-!
Shallow embedding of the resilience and authentication core of the
cf-mail-bridge repository (`src/retry-service.ts` and the `AuthService`
shipped alongside the test helpers), together with theorems checking the
natural-language specification against it.

Conventions:
* JavaScript numbers holding millisecond timestamps are modelled as `Int`
  (so `Date.now() - lastFailureTime` is exact integer subtraction).
* A fallible async operation is modelled as its outcome, `Except ε α`;
  an operation that may be retried is a function from the attempt index
  to the outcome of that attempt, `Nat → Except ε α`.
* Thrown JavaScript values inspected via duck typing are modelled by the
  structure `JsError` with optional fields; a `null`/`undefined` error is
  `Option.none`.
-/

/-! ## Circuit breaker (`src/retry-service.ts`, class `CircuitBreaker`) -/

/-- The three states of `CircuitBreaker.state`. -/
inductive CBState
  | CLOSED
  | OPEN
  | HALF_OPEN
deriving DecidableEq, Repr

/-- The mutable fields and constructor parameters of `CircuitBreaker`.
`failures` and `lastFailureTime` start at `0`, `state` starts `CLOSED`;
defaults of the constructor parameters are `5`, `60000`, `3`.
`successThreshold` is accepted by the constructor but read nowhere else. -/
structure CircuitBreaker where
  failureThreshold : Nat := 5
  recoveryTimeout : Int := 60000
  successThreshold : Nat := 3
  failures : Nat := 0
  lastFailureTime : Int := 0
  state : CBState := .CLOSED
deriving DecidableEq, Repr

/-- Outcome of one `CircuitBreaker.execute` call: the fast-fail
`Error("Circuit breaker is OPEN ...")`, a returned value, or a rethrown
operation error. -/
inductive CBResult (ε α : Type) where
  | circuitOpen
  | opOk (a : α)
  | opError (e : ε)
deriving DecidableEq, Repr

/-- Source `CircuitBreaker.onSuccess`: reset `failures` to 0 and move a
`HALF_OPEN` breaker to `CLOSED`. -/
def CircuitBreaker.onSuccess (cb : CircuitBreaker) : CircuitBreaker :=
  if cb.state = .HALF_OPEN then
    { cb with failures := 0, state := .CLOSED }
  else
    { cb with failures := 0 }

/-- Source `CircuitBreaker.onFailure`: increment `failures`, record
`lastFailureTime := Date.now()`, and open the breaker once
`failures >= failureThreshold`. -/
def CircuitBreaker.onFailure (cb : CircuitBreaker) (now : Int) : CircuitBreaker :=
  if cb.failureThreshold ≤ cb.failures + 1 then
    { cb with failures := cb.failures + 1, lastFailureTime := now, state := .OPEN }
  else
    { cb with failures := cb.failures + 1, lastFailureTime := now }

/-- The state update performed at the top of `execute` once the fast-fail
check has passed: an `OPEN` breaker whose recovery timeout has elapsed is
moved to `HALF_OPEN` before the operation is attempted. -/
def CircuitBreaker.gate (cb : CircuitBreaker) : CircuitBreaker :=
  if cb.state = .OPEN then { cb with state := .HALF_OPEN } else cb

/-- Source `CircuitBreaker.execute`, with `now = Date.now()` and the wrapped
operation's outcome passed explicitly.  Returns the call's result, the
breaker after the call, and whether the wrapped operation was invoked. -/
def CircuitBreaker.execute (cb : CircuitBreaker) (now : Int) (op : Except ε α) :
    CBResult ε α × CircuitBreaker × Bool :=
  if cb.state = .OPEN ∧ now - cb.lastFailureTime < cb.recoveryTimeout then
    (.circuitOpen, cb, false)
  else
    match op with
    | .ok a => (.opOk a, cb.gate.onSuccess, true)
    | .error e => (.opError e, cb.gate.onFailure now, true)

/-- Source `CircuitBreaker.reset`: force `CLOSED` with both counters zeroed. -/
def CircuitBreaker.reset (cb : CircuitBreaker) : CircuitBreaker :=
  { cb with failures := 0, lastFailureTime := 0, state := .CLOSED }

/-- The breaker produced by `new CircuitBreaker(ft, rt, st)`. -/
def CircuitBreaker.init (ft : Nat) (rt : Int) (st : Nat) : CircuitBreaker :=
  { failureThreshold := ft, recoveryTimeout := rt, successThreshold := st }

/-- States reachable from `CircuitBreaker.init ft rt st` by any sequence of
`execute` and `reset` calls. -/
inductive CircuitBreaker.Reachable (ft : Nat) (rt : Int) (st : Nat) :
    CircuitBreaker → Prop where
  | init : CircuitBreaker.Reachable ft rt st (CircuitBreaker.init ft rt st)
  | step {cb : CircuitBreaker} {ε α : Type} (now : Int) (op : Except ε α) :
      CircuitBreaker.Reachable ft rt st cb →
      CircuitBreaker.Reachable ft rt st (cb.execute now op).2.1
  | reset {cb : CircuitBreaker} :
      CircuitBreaker.Reachable ft rt st cb →
      CircuitBreaker.Reachable ft rt st cb.reset

/-- The `execute` call never changes the constructor parameters. -/
theorem CircuitBreaker.execute_params (cb : CircuitBreaker) (now : Int)
    (op : Except ε α) :
    ((cb.execute now op).2.1.failureThreshold = cb.failureThreshold ∧
     (cb.execute now op).2.1.recoveryTimeout = cb.recoveryTimeout ∧
     (cb.execute now op).2.1.successThreshold = cb.successThreshold) := by
  unfold CircuitBreaker.execute CircuitBreaker.gate CircuitBreaker.onSuccess
    CircuitBreaker.onFailure
  cases op <;> split_ifs <;> simp_all

/-- The reachability invariant: configuration fields are those of the
constructor call, and outside `CLOSED` the failure counter has reached the
threshold. -/
theorem CircuitBreaker.reachable_invariant {ft : Nat} {rt : Int} {st : Nat}
    {cb : CircuitBreaker} (h : CircuitBreaker.Reachable ft rt st cb) :
    cb.failureThreshold = ft ∧ cb.recoveryTimeout = rt ∧
      cb.successThreshold = st ∧
      (cb.state ≠ .CLOSED → ft ≤ cb.failures) := by
  induction h with
  | init => exact ⟨rfl, rfl, rfl, fun h => absurd rfl h⟩
  | @step cb ε α now op _ ih =>
    obtain ⟨hft, hrt, hst, hinv⟩ := ih
    obtain ⟨hft', hrt', hst'⟩ := CircuitBreaker.execute_params cb now op
    refine ⟨hft' ▸ hft, hrt' ▸ hrt, hst' ▸ hst, ?_⟩
    clear hft' hrt' hst' hrt hst
    subst hft
    unfold CircuitBreaker.execute CircuitBreaker.gate CircuitBreaker.onSuccess
      CircuitBreaker.onFailure
    cases op <;> split_ifs <;> simp_all
    all_goals try omega
    all_goals (intro hne; cases hcs : cb.state <;> simp_all)
  | reset _ ih =>
    obtain ⟨hft, hrt, hst, _⟩ := ih
    exact ⟨hft, hrt, hst, fun h => absurd rfl h⟩

/-- C1: for an `OPEN` breaker, `execute` fast-fails without invoking the
operation while `now − lastFailureTime < recoveryTimeout`; once the
interval has elapsed, the call first moves the breaker to `HALF_OPEN` and
then invokes the operation. -/
theorem circuitBreaker_open_fast_fail_then_half_open {ε α : Type}
    (cb : CircuitBreaker) (now : Int) (op : Except ε α)
    (hO : cb.state = .OPEN) :
    (now - cb.lastFailureTime < cb.recoveryTimeout →
      cb.execute now op = (.circuitOpen, cb, false)) ∧
    (cb.recoveryTimeout ≤ now - cb.lastFailureTime →
      (cb.execute now op).2.2 = true ∧
      cb.execute now op =
        match op with
        | .ok a =>
            (.opOk a, ({ cb with state := .HALF_OPEN } : CircuitBreaker).onSuccess, true)
        | .error e =>
            (.opError e,
             ({ cb with state := .HALF_OPEN } : CircuitBreaker).onFailure now, true)) := by
  constructor
  · intro hlt
    unfold CircuitBreaker.execute
    rw [if_pos ⟨hO, hlt⟩]
  · intro hle
    have hnb : ¬(cb.state = .OPEN ∧ now - cb.lastFailureTime < cb.recoveryTimeout) := by
      rintro ⟨-, hlt⟩; omega
    have hg : cb.gate = { cb with state := .HALF_OPEN } := by
      unfold CircuitBreaker.gate; rw [if_pos hO]
    unfold CircuitBreaker.execute
    rw [if_neg hnb]
    cases op <;> simp [hg]

/-- Closed-form instance of the `OPEN`-state behaviour: with
`lastFailureTime = 1000` and `recoveryTimeout = 60000`, the call at
`now = 2000` fast-fails without invoking the operation, and the call at
`now = 61000` invokes it. -/
theorem circuitBreaker_open_fast_fail_then_half_open_witness :
    ({ failures := 5, lastFailureTime := 1000, state := .OPEN : CircuitBreaker }.execute
        2000 (Except.ok 7 : Except Unit Nat) =
      (.circuitOpen, { failures := 5, lastFailureTime := 1000, state := .OPEN }, false)) ∧
    ({ failures := 5, lastFailureTime := 1000, state := .OPEN : CircuitBreaker }.execute
        61000 (Except.ok 7 : Except Unit Nat)).2.2 = true :=
  ⟨(circuitBreaker_open_fast_fail_then_half_open _ 2000 _ rfl).1 (by decide),
   ((circuitBreaker_open_fast_fail_then_half_open _ 61000 _ rfl).2 (by decide)).1⟩

/-- C2: the deterministic transition function of `execute`.  In `CLOSED`,
success keeps `CLOSED` and resets `failures`; failure increments
`failures`, records `lastFailureTime`, and opens the breaker exactly when
the incremented count reaches `failureThreshold`.  In `HALF_OPEN`, a
single success moves to `CLOSED` with `failures = 0` regardless of
`successThreshold`; a failure (with the counter at or above the threshold,
as the reachability invariant guarantees there) increments `failures`,
records `lastFailureTime`, and returns the breaker to `OPEN`. -/
theorem circuitBreaker_transition_function {ε α : Type}
    (cb : CircuitBreaker) (now : Int) :
    (∀ a : α, cb.state = .CLOSED →
      cb.execute now (Except.ok a : Except ε α) =
        (.opOk a, { cb with failures := 0 }, true)) ∧
    (∀ e : ε, cb.state = .CLOSED →
      cb.execute now (Except.error e : Except ε α) =
        (.opError e,
         { cb with failures := cb.failures + 1, lastFailureTime := now,
                   state := if cb.failureThreshold ≤ cb.failures + 1
                            then .OPEN else .CLOSED },
         true)) ∧
    (∀ a : α, cb.state = .HALF_OPEN →
      cb.execute now (Except.ok a : Except ε α) =
        (.opOk a, { cb with failures := 0, state := .CLOSED }, true)) ∧
    (∀ e : ε, cb.state = .HALF_OPEN → cb.failureThreshold ≤ cb.failures →
      cb.execute now (Except.error e : Except ε α) =
        (.opError e,
         { cb with failures := cb.failures + 1, lastFailureTime := now,
                   state := .OPEN },
         true)) := by
  refine ⟨?_, ?_, ?_, ?_⟩
  · intro a hC
    unfold CircuitBreaker.execute CircuitBreaker.gate CircuitBreaker.onSuccess
    simp [hC]
  · intro e hC
    unfold CircuitBreaker.execute CircuitBreaker.gate CircuitBreaker.onFailure
    simp only [hC]
    split_ifs <;> simp_all
  · intro a hH
    unfold CircuitBreaker.execute CircuitBreaker.gate CircuitBreaker.onSuccess
    simp [hH]
  · intro e hH hth
    unfold CircuitBreaker.execute CircuitBreaker.gate CircuitBreaker.onFailure
    have : cb.failureThreshold ≤ cb.failures + 1 := by omega
    simp [hH, this]

/-- Closed-form instances of the four transitions, at concrete breakers. -/
theorem circuitBreaker_transition_function_witness :
    (({ failures := 2, state := .CLOSED : CircuitBreaker }).execute 9
        (Except.ok 11 : Except Unit Nat) =
      (.opOk 11, { failures := 0, state := .CLOSED }, true)) ∧
    (({ failureThreshold := 3, failures := 2, state := .CLOSED : CircuitBreaker }).execute 9
        (Except.error () : Except Unit Nat) =
      (.opError (),
       { failureThreshold := 3, failures := 3, lastFailureTime := 9, state := .OPEN },
       true)) ∧
    (({ failures := 5, state := .HALF_OPEN : CircuitBreaker }).execute 9
        (Except.ok 11 : Except Unit Nat) =
      (.opOk 11, { failures := 0, state := .CLOSED }, true)) ∧
    (({ failures := 5, state := .HALF_OPEN : CircuitBreaker }).execute 9
        (Except.error () : Except Unit Nat) =
      (.opError (),
       { failures := 6, lastFailureTime := 9, state := .OPEN },
       true)) :=
  ⟨(circuitBreaker_transition_function (ε := Unit) _ 9).1 11 rfl,
   by
    have h := (circuitBreaker_transition_function (ε := Unit) (α := Nat)
      ({ failureThreshold := 3, failures := 2, state := .CLOSED : CircuitBreaker }) 9).2.1
      () rfl
    simpa using h,
   (circuitBreaker_transition_function (ε := Unit) _ 9).2.2.1 11 rfl,
   (circuitBreaker_transition_function (α := Nat) _ 9).2.2.2 () rfl (by decide)⟩

/-- C10: along every sequence of `execute`/`reset` calls from a breaker
constructed with `failureThreshold ≥ 1`, whenever the state is `OPEN` or
`HALF_OPEN` the failure counter is at least `failureThreshold`; the
`OPEN → HALF_OPEN` gate keeps the counter unchanged, and consequently one
failure of the single `HALF_OPEN` probe immediately re-opens the breaker. -/
theorem circuitBreaker_failures_ge_threshold_outside_closed
    {ft : Nat} {rt : Int} {st : Nat} {cb : CircuitBreaker} {ε : Type}
    (h : CircuitBreaker.Reachable ft rt st cb) (_hft : 1 ≤ ft) :
    ((cb.state = .OPEN ∨ cb.state = .HALF_OPEN) → ft ≤ cb.failures) ∧
    cb.gate.failures = cb.failures ∧
    (cb.state = .OPEN → ∀ (now : Int) (e : ε),
      cb.recoveryTimeout ≤ now - cb.lastFailureTime →
      ((cb.execute now (Except.error e : Except ε Unit)).2.1).state = .OPEN) := by
  obtain ⟨hftEq, -, -, hinv⟩ := CircuitBreaker.reachable_invariant h
  refine ⟨?_, ?_, ?_⟩
  · rintro (hs | hs) <;> exact hinv (by simp [hs])
  · unfold CircuitBreaker.gate
    split <;> rfl
  · intro hO now e hle
    have hfail : ft ≤ cb.failures := hinv (by simp [hO])
    have hnb : ¬(cb.state = .OPEN ∧ now - cb.lastFailureTime < cb.recoveryTimeout) := by
      rintro ⟨-, hlt⟩; omega
    unfold CircuitBreaker.execute CircuitBreaker.gate CircuitBreaker.onFailure
    rw [if_neg hnb]
    have : cb.failureThreshold ≤ cb.failures + 1 := by omega
    simp [hO, this]

/-- Closed-form instance: with `failureThreshold = 1`, one failed call from
the initial breaker reaches an `OPEN` state whose counter has hit the
threshold, and a failure of the recovery probe re-opens the breaker. -/
theorem circuitBreaker_failures_ge_threshold_outside_closed_witness :
    1 ≤ (((CircuitBreaker.init 1 60000 3).execute 0
            (Except.error () : Except Unit Unit)).2.1).failures ∧
    (((((CircuitBreaker.init 1 60000 3).execute 0
            (Except.error () : Except Unit Unit)).2.1).execute 60000
            (Except.error () : Except Unit Unit)).2.1).state = .OPEN := by
  have h := circuitBreaker_failures_ge_threshold_outside_closed
    (ε := Unit)
    (CircuitBreaker.Reachable.step 0 (Except.error () : Except Unit Unit)
      (CircuitBreaker.Reachable.init :
        CircuitBreaker.Reachable 1 60000 3 (CircuitBreaker.init 1 60000 3)))
    (le_refl 1)
  exact ⟨h.1 (Or.inl (by decide)), h.2.2 (by decide) 60000 () (by decide)⟩

/-! ## Retry executor (`src/retry-service.ts`, class `RetryService`) -/

/-- The `while (attempt <= maxRetries)` loop of
`RetryService.executeWithRetry`, with `attempt` the index of the attempt
about to run and `remaining = maxRetries - attempt` the number of retries
still allowed.  The operation is modelled by the outcome of each attempt
index; the pair returned is (outcome of the call, number of invocations of
the operation).  A failed attempt stops with the caught error once either
`attempt` would exceed `maxRetries` or `shouldRetry` rejects the error;
otherwise the loop retries after the backoff delay (time is irrelevant to
the result and not modelled). -/
def retryLoop {ε α : Type} (op : Nat → Except ε α) (shouldRetry : ε → Bool) :
    Nat → Nat → Except ε α × Nat
  | attempt, remaining =>
    match op attempt with
    | .ok a => (.ok a, attempt + 1)
    | .error e =>
      match remaining with
      | 0 => (.error e, attempt + 1)
      | r + 1 =>
        if shouldRetry e then retryLoop op shouldRetry (attempt + 1) r
        else (.error e, attempt + 1)

/-- Source `RetryService.executeWithRetry(operation, shouldRetry, context)`:
run the loop from attempt `0` with `maxRetries` retries allowed. -/
def RetryService.executeWithRetry {ε α : Type} (maxRetries : Nat)
    (op : Nat → Except ε α) (shouldRetry : ε → Bool) : Except ε α × Nat :=
  retryLoop op shouldRetry 0 maxRetries

theorem retryLoop_ok {ε α : Type} {op : Nat → Except ε α} {sr : ε → Bool}
    {attempt : Nat} {a : α} (remaining : Nat) (h : op attempt = .ok a) :
    retryLoop op sr attempt remaining = (.ok a, attempt + 1) := by
  unfold retryLoop; rw [h]

theorem retryLoop_err_stop {ε α : Type} {op : Nat → Except ε α} {sr : ε → Bool}
    {attempt : Nat} {e : ε} (h : op attempt = .error e) :
    retryLoop op sr attempt 0 = (.error e, attempt + 1) := by
  unfold retryLoop; rw [h]

theorem retryLoop_err_cont {ε α : Type} {op : Nat → Except ε α} {sr : ε → Bool}
    {attempt : Nat} {e : ε} {r : Nat} (h : op attempt = .error e)
    (hsr : sr e = true) :
    retryLoop op sr attempt (r + 1) = retryLoop op sr (attempt + 1) r := by
  conv_lhs => unfold retryLoop
  rw [h]
  exact if_pos hsr

theorem retryLoop_err_nonretry {ε α : Type} {op : Nat → Except ε α} {sr : ε → Bool}
    {attempt : Nat} {e : ε} {r : Nat} (h : op attempt = .error e)
    (hsr : sr e = false) :
    retryLoop op sr attempt (r + 1) = (.error e, attempt + 1) := by
  unfold retryLoop; rw [h]; exact if_neg (by simp [hsr])

theorem retryLoop_count_le {ε α : Type} (op : Nat → Except ε α)
    (sr : ε → Bool) (attempt remaining : Nat) :
    (retryLoop op sr attempt remaining).2 ≤ attempt + remaining + 1 := by
  induction remaining generalizing attempt with
  | zero =>
    cases hop : op attempt with
    | ok a => rw [retryLoop_ok 0 hop]
    | error e => rw [retryLoop_err_stop hop]
  | succ r ih =>
    cases hop : op attempt with
    | ok a => rw [retryLoop_ok (r + 1) hop]; simp
    | error e =>
      cases hsr : sr e with
      | true =>
        rw [retryLoop_err_cont hop hsr]
        exact le_trans (ih (attempt + 1)) (by omega)
      | false =>
        rw [retryLoop_err_nonretry hop hsr]
        show attempt + 1 ≤ attempt + (r + 1) + 1
        omega

theorem retryLoop_success {ε α : Type} {op : Nat → Except ε α}
    {sr : ε → Bool} {attempt remaining j : Nat} {v : α}
    (h1 : attempt ≤ j) (h2 : j ≤ attempt + remaining)
    (hok : op j = .ok v)
    (hfail : ∀ i, attempt ≤ i → i < j → ∃ e, op i = .error e ∧ sr e = true) :
    retryLoop op sr attempt remaining = (.ok v, j + 1) := by
  induction remaining generalizing attempt with
  | zero =>
    have : attempt = j := by omega
    subst this
    exact retryLoop_ok 0 hok
  | succ r ih =>
    rcases eq_or_lt_of_le h1 with heq | hlt
    · subst heq
      exact retryLoop_ok (r + 1) hok
    · obtain ⟨e, he, hsr⟩ := hfail attempt (le_refl _) hlt
      rw [retryLoop_err_cont he hsr]
      exact ih (by omega) (by omega) (fun i hi => hfail i (by omega))

theorem retryLoop_nonretryable {ε α : Type} {op : Nat → Except ε α}
    {sr : ε → Bool} {attempt remaining j : Nat} {e : ε}
    (h1 : attempt ≤ j) (h2 : j ≤ attempt + remaining)
    (herr : op j = .error e) (hsr : sr e = false)
    (hfail : ∀ i, attempt ≤ i → i < j → ∃ e', op i = .error e' ∧ sr e' = true) :
    retryLoop op sr attempt remaining = (.error e, j + 1) := by
  induction remaining generalizing attempt with
  | zero =>
    have : attempt = j := by omega
    subst this
    exact retryLoop_err_stop herr
  | succ r ih =>
    rcases eq_or_lt_of_le h1 with heq | hlt
    · subst heq
      exact retryLoop_err_nonretry herr hsr
    · obtain ⟨e', he', hsr'⟩ := hfail attempt (le_refl _) hlt
      rw [retryLoop_err_cont he' hsr']
      exact ih (by omega) (by omega) (fun i hi => hfail i (by omega))

theorem retryLoop_exhaust {ε α : Type} {op : Nat → Except ε α}
    {sr : ε → Bool} {attempt remaining : Nat}
    (hfail : ∀ i, attempt ≤ i → i ≤ attempt + remaining →
      ∃ e, op i = .error e ∧ sr e = true) :
    ∃ e, op (attempt + remaining) = .error e ∧
      retryLoop op sr attempt remaining = (.error e, attempt + remaining + 1) := by
  induction remaining generalizing attempt with
  | zero =>
    obtain ⟨e, he, -⟩ := hfail attempt (le_refl _) (by omega)
    rw [show attempt + 0 = attempt by omega]
    exact ⟨e, he, retryLoop_err_stop he⟩
  | succ r ih =>
    obtain ⟨e, he, hsr⟩ := hfail attempt (le_refl _) (by omega)
    obtain ⟨e', he', hloop⟩ := @ih (attempt + 1)
      (fun i hi hi' => hfail i (by omega) (by omega))
    rw [show attempt + (r + 1) = attempt + 1 + r by omega]
    exact ⟨e', he', by rw [retryLoop_err_cont he hsr]; exact hloop⟩

/-- C3: `executeWithRetry` invokes the operation at most `maxRetries + 1`
times; a success at attempt `j` (after `j` retryable failures) returns that
value after exactly `j + 1` invocations; a failure the predicate rejects is
rethrown after exactly `j + 1` invocations; and when every attempt fails
with a retryable error, the operation runs exactly `maxRetries + 1` times
and the last error is rethrown. -/
theorem retryService_executeWithRetry_spec {ε α : Type}
    (maxRetries : Nat) (op : Nat → Except ε α) (shouldRetry : ε → Bool) :
    (RetryService.executeWithRetry maxRetries op shouldRetry).2 ≤ maxRetries + 1 ∧
    (∀ j v, j ≤ maxRetries → op j = .ok v →
      (∀ i, i < j → ∃ e, op i = .error e ∧ shouldRetry e = true) →
      RetryService.executeWithRetry maxRetries op shouldRetry = (.ok v, j + 1)) ∧
    (∀ j e, j ≤ maxRetries → op j = .error e → shouldRetry e = false →
      (∀ i, i < j → ∃ e', op i = .error e' ∧ shouldRetry e' = true) →
      RetryService.executeWithRetry maxRetries op shouldRetry = (.error e, j + 1)) ∧
    ((∀ i, i ≤ maxRetries → ∃ e, op i = .error e ∧ shouldRetry e = true) →
      ∃ e, op maxRetries = .error e ∧
        RetryService.executeWithRetry maxRetries op shouldRetry =
          (.error e, maxRetries + 1)) := by
  refine ⟨?_, ?_, ?_, ?_⟩
  · simpa [RetryService.executeWithRetry] using retryLoop_count_le op shouldRetry 0 maxRetries
  · intro j v hj hok hfail
    exact retryLoop_success (Nat.zero_le _) (by omega) hok
      (fun i _ hi => hfail i hi)
  · intro j e hj herr hsr hfail
    exact retryLoop_nonretryable (Nat.zero_le _) (by omega) herr hsr
      (fun i _ hi => hfail i hi)
  · intro hfail
    have h := @retryLoop_exhaust ε α op shouldRetry 0 maxRetries
      (fun i _ hi => hfail i (by omega))
    simpa [RetryService.executeWithRetry] using h

/-- Closed-form instances: with `maxRetries = 3`, an operation failing
twice then succeeding is invoked exactly 3 times and its value returned;
an always-failing retryable operation is invoked exactly 4 times and the
last error rethrown. -/
theorem retryService_executeWithRetry_spec_witness :
    RetryService.executeWithRetry 3
        (fun n => if n < 2 then Except.error 0 else Except.ok 42)
        (fun _ => true) = (Except.ok 42, 3) ∧
    RetryService.executeWithRetry 3
        (fun n => (Except.error n : Except Nat Nat))
        (fun _ => true) = (Except.error 3, 4) := by
  constructor
  · exact (retryService_executeWithRetry_spec 3
      (fun n => if n < 2 then Except.error 0 else Except.ok 42)
      (fun _ => true)).2.1 2 42 (by decide) rfl
      (fun i hi => ⟨0, by simp [hi], rfl⟩)
  · obtain ⟨e, he, hrun⟩ := (retryService_executeWithRetry_spec 3
      (fun n => (Except.error n : Except Nat Nat))
      (fun _ => true)).2.2.2 (fun i _ => ⟨i, rfl, rfl⟩)
    have : e = 3 := by simpa using he.symm
    rw [this] at hrun
    exact hrun

/-! ## Error classification (`src/retry-service.ts`,
`RetryService.isEmailRetryableError` and
`EnhancedRetryService.isEmailRetryableError`) -/

/-- A thrown JavaScript value as inspected by the duck-typed error
classification: its `name`, `message`, `status` and `retryable` fields
(absent fields are `none`), and whether it is an `instanceof Error`. -/
structure JsError where
  name : String
  message : Option String := none
  status : Option Int := none
  retryable : Option Bool := none
  isError : Bool := true
deriving DecidableEq, Repr

/-- JavaScript truthiness of an optional `error.message` string: present
and non-empty. -/
def msgTruthy : Option String → Bool
  | some s => s != ""
  | none => false

/-- JavaScript `String.prototype.includes`: `pat` occurs contiguously in `s`. -/
def strIncludes (s pat : String) : Bool :=
  (List.range (s.length + 1)).any
    (fun k => List.take pat.length (List.drop k s.toList) == pat.toList)

/-- The check `error.message.includes(pat)` guarded by presence of the field. -/
def msgIncludes : Option String → String → Bool
  | some s, pat => strIncludes s pat
  | none, _ => false

/-- The check `error.status && error.status >= 500`: the field is present, truthy
(non-zero), and at least 500. -/
def statusRetryable : Option Int → Bool
  | some s => s != 0 && decide (500 ≤ s)
  | none => false

/-- Source `RetryService.isEmailRetryableError`: the private classifier used by
`executeEmailOperationWithRetry`.  It ends with the
`error.retryable === true` escape hatch. -/
def RetryService.isEmailRetryableError : Option JsError → Bool
  | none => false
  | some e =>
    if e.name == "NetworkError" || e.name == "TimeoutError" then true
    else if msgTruthy e.message && msgIncludes e.message "rate limit" then true
    else if statusRetryable e.status then true
    else if msgTruthy e.message &&
        (msgIncludes e.message "rate_limit_exceeded" ||
         msgIncludes e.message "temporary_failure" ||
         msgIncludes e.message "server_error" ||
         msgIncludes e.message "timeout" ||
         msgIncludes e.message "connection") then true
    else if e.retryable == some true then true
    else false

/-- Source `EnhancedRetryService.isEmailRetryableError`: the classifier passed to
the retry executor by `EnhancedRetryService.executeEmailOperation`.  It is
the same cascade except that it has no `error.retryable === true` check. -/
def EnhancedRetryService.isEmailRetryableError : Option JsError → Bool
  | none => false
  | some e =>
    if e.name == "NetworkError" || e.name == "TimeoutError" then true
    else if msgTruthy e.message && msgIncludes e.message "rate limit" then true
    else if statusRetryable e.status then true
    else if msgTruthy e.message &&
        (msgIncludes e.message "rate_limit_exceeded" ||
         msgIncludes e.message "temporary_failure" ||
         msgIncludes e.message "server_error" ||
         msgIncludes e.message "timeout" ||
         msgIncludes e.message "connection") then true
    else false

/-- Source `EnhancedRetryService.executeEmailOperation`: the facade wraps the
retry executor (driven by the Enhanced classifier) inside
`CircuitBreaker.execute`. -/
def EnhancedRetryService.executeEmailOperation {α : Type}
    (cb : CircuitBreaker) (maxRetries : Nat) (now : Int)
    (op : Nat → Except JsError α) :
    CBResult JsError α × CircuitBreaker × Bool :=
  cb.execute now
    (RetryService.executeWithRetry maxRetries op
      (fun e => EnhancedRetryService.isEmailRetryableError (some e))).1

/-- An error carrying only the explicit `retryable = true` flag: no
network/timeout name, no retryable message substring, status below 500. -/
def flagOnlyError : JsError :=
  { name := "ApplicationError", message := some "quota exceeded",
    status := some 429, retryable := some true, isError := true }

/-- C6 counterexample: the classifier that `executeEmailOperation` passes
to the retry executor is `EnhancedRetryService.isEmailRetryableError`,
which returns `false` for an error whose only retryable signal is the
explicit `retryable = true` flag; only `RetryService`'s own classifier
honours that flag. -/
theorem enhanced_classifier_ignores_retryable_flag_counterexample :
    flagOnlyError.retryable = some true ∧
    EnhancedRetryService.isEmailRetryableError (some flagOnlyError) = false ∧
    RetryService.isEmailRetryableError (some flagOnlyError) = true := by
  decide

/-- C6 (amended): the classification used by `executeEmailOperation`
returns true exactly for network/timeout error names, messages containing
one of the listed rate-limit/temporary-failure substrings, and HTTP status
≥ 500; it ignores the `retryable = true` flag entirely, and that flag
check exists only in `RetryService.isEmailRetryableError`. -/
theorem enhancedRetryService_isEmailRetryableError_spec :
    (∀ e : JsError,
      EnhancedRetryService.isEmailRetryableError (some e) =
        (e.name == "NetworkError" || e.name == "TimeoutError" ||
         msgTruthy e.message &&
           (msgIncludes e.message "rate limit" ||
            msgIncludes e.message "rate_limit_exceeded" ||
            msgIncludes e.message "temporary_failure" ||
            msgIncludes e.message "server_error" ||
            msgIncludes e.message "timeout" ||
            msgIncludes e.message "connection") ||
         statusRetryable e.status)) ∧
    EnhancedRetryService.isEmailRetryableError none = false ∧
    (∀ (e : JsError) (r : Option Bool),
      EnhancedRetryService.isEmailRetryableError (some { e with retryable := r }) =
        EnhancedRetryService.isEmailRetryableError (some e)) ∧
    (∀ err : Option JsError,
      RetryService.isEmailRetryableError err =
        (EnhancedRetryService.isEmailRetryableError err ||
         (match err with
          | some e => e.retryable == some true
          | none => false))) := by
  refine ⟨?_, rfl, ?_, ?_⟩
  · intro e
    simp only [EnhancedRetryService.isEmailRetryableError]
    split_ifs <;> simp_all
  · intro e r
    rfl
  · intro err
    cases err with
    | none => rfl
    | some e =>
      simp only [RetryService.isEmailRetryableError,
        EnhancedRetryService.isEmailRetryableError]
      split_ifs <;> simp_all

/-! ## Structured email results
(`src/types.ts` interface `EmailSendResult`,
`src/retry-service.ts` `RetryService.executeEmailOperationWithRetry`) -/

/-- Interface `EmailSendResult` from `src/types.ts`: `{success, messageId?, error?,
retryable?}`. -/
structure EmailSendResult where
  success : Bool
  messageId : Option String := none
  error : Option String := none
  retryable : Option Bool := none
deriving DecidableEq, Repr

/-- The conversion `error instanceof Error ? error.message : 'Unknown error after
retries'` (an `Error` instance always carries a `message` string, so an
absent field is read as the empty string). -/
def jsErrorMessage (e : JsError) : String :=
  if e.isError then e.message.getD "" else "Unknown error after retries"

/-- Source `RetryService.executeEmailOperationWithRetry`: run the retry executor
with `RetryService.isEmailRetryableError` as the predicate and catch any
error that escapes it, converting it into a structured failed
`EmailSendResult`. -/
def RetryService.executeEmailOperationWithRetry (maxRetries : Nat)
    (op : Nat → Except JsError EmailSendResult) : EmailSendResult :=
  match (RetryService.executeWithRetry maxRetries op
      (fun e => RetryService.isEmailRetryableError (some e))).1 with
  | .ok r => r
  | .error e =>
    { success := false, error := some (jsErrorMessage e), retryable := some false }

/-- C7: `executeEmailOperationWithRetry` never lets an exception escape.
A successful attempt's result is returned as is; if every attempt fails
with a retryable error, or some attempt fails with a non-retryable error,
the thrown error is converted into
`{success: false, error: message, retryable: false}`. -/
theorem retryService_executeEmailOperationWithRetry_spec (maxRetries : Nat)
    (op : Nat → Except JsError EmailSendResult) :
    (∀ j r, j ≤ maxRetries → op j = .ok r →
      (∀ i, i < j → ∃ e, op i = .error e ∧
        RetryService.isEmailRetryableError (some e) = true) →
      RetryService.executeEmailOperationWithRetry maxRetries op = r) ∧
    ((∀ i, i ≤ maxRetries → ∃ e, op i = .error e ∧
        RetryService.isEmailRetryableError (some e) = true) →
      ∃ e, op maxRetries = .error e ∧
        RetryService.executeEmailOperationWithRetry maxRetries op =
          { success := false, error := some (jsErrorMessage e),
            retryable := some false }) ∧
    (∀ j e, j ≤ maxRetries → op j = .error e →
      RetryService.isEmailRetryableError (some e) = false →
      (∀ i, i < j → ∃ e', op i = .error e' ∧
        RetryService.isEmailRetryableError (some e') = true) →
      RetryService.executeEmailOperationWithRetry maxRetries op =
        { success := false, error := some (jsErrorMessage e),
          retryable := some false }) := by
  refine ⟨?_, ?_, ?_⟩
  · intro j r hj hok hfail
    have h : RetryService.executeWithRetry maxRetries op
        (fun e => RetryService.isEmailRetryableError (some e)) = (.ok r, j + 1) :=
      retryLoop_success (Nat.zero_le _) (by omega) hok (fun i _ hi => hfail i hi)
    unfold RetryService.executeEmailOperationWithRetry
    rw [h]
  · intro hfail
    obtain ⟨e, he, hrun⟩ := @retryLoop_exhaust JsError EmailSendResult op
      (fun e => RetryService.isEmailRetryableError (some e)) 0 maxRetries
      (fun i _ hi => hfail i (by omega))
    refine ⟨e, by simpa using he, ?_⟩
    unfold RetryService.executeEmailOperationWithRetry
    rw [show RetryService.executeWithRetry maxRetries op
        (fun e => RetryService.isEmailRetryableError (some e)) =
        (.error e, maxRetries + 1) by simpa [RetryService.executeWithRetry] using hrun]
  · intro j e hj herr hsr hfail
    have h : RetryService.executeWithRetry maxRetries op
        (fun e => RetryService.isEmailRetryableError (some e)) = (.error e, j + 1) :=
      retryLoop_nonretryable (Nat.zero_le _) (by omega) herr hsr
        (fun i _ hi => hfail i hi)
    unfold RetryService.executeEmailOperationWithRetry
    rw [h]

/-- Closed-form instances: an operation that always throws a retryable
`Error("boom")` with status 500 yields the structured failure
`{success: false, error: "boom", retryable: false}` after all attempts,
and an operation that succeeds at once has its result passed through. -/
theorem retryService_executeEmailOperationWithRetry_spec_witness :
    RetryService.executeEmailOperationWithRetry 1
        (fun _ => Except.error
          { name := "ServerError", message := some "boom", status := some 500 }) =
      { success := false, error := some "boom", retryable := some false } ∧
    RetryService.executeEmailOperationWithRetry 1
        (fun _ => Except.ok { success := true, messageId := some "id-1" }) =
      { success := true, messageId := some "id-1" } := by
  constructor
  · obtain ⟨e, he, hres⟩ := (retryService_executeEmailOperationWithRetry_spec 1
      (fun _ => Except.error
        { name := "ServerError", message := some "boom", status := some 500 })).2.1
      (fun i _ => ⟨{ name := "ServerError", message := some "boom", status := some 500 },
        rfl, by decide⟩)
    injection he with h
    rw [← h] at hres
    exact hres
  · exact (retryService_executeEmailOperationWithRetry_spec 1
      (fun _ => Except.ok { success := true, messageId := some "id-1" })).1 0 _
      (by omega) rfl (fun i hi => absurd hi (Nat.not_lt_zero i))

/-! ## Bearer-token extraction (`AuthService.extractTokenFromHeader`) -/

/-- JavaScript `String.prototype.split` with a single-character separator:
splits at every occurrence, keeping empty parts between, before, and after
separators (`"".split(sep) = [""]`). -/
def splitOnChar (sep : Char) : List Char → List (List Char)
  | [] => [[]]
  | c :: rest =>
    let r := splitOnChar sep rest
    if c = sep then [] :: r
    else
      match r with
      | [] => [[c]]
      | g :: gs => (c :: g) :: gs

/-- Source `AuthService.extractTokenFromHeader(authHeader)`: `null` and the empty
string are falsy and yield `null`; otherwise the header is split on single
spaces and the token is returned only from a two-part split whose first
part is literally `"Bearer"`. -/
def AuthService.extractTokenFromHeader : Option String → Option String
  | none => none
  | some h =>
    if h = "" then none
    else
      match splitOnChar ' ' h.toList with
      | [p0, p1] => if p0 = "Bearer".toList then some (String.mk p1) else none
      | _ => none

/-- C9: a token is returned exactly when the header splits on single
spaces into exactly `["Bearer", token]`; a missing header, a different
scheme, more than two parts, or the bare string `"Bearer"` yields `null`,
and surrounding whitespace is not trimmed (leading or trailing spaces
around the scheme/token pair produce extra split parts and are
rejected). -/
theorem authService_extractTokenFromHeader_spec :
    AuthService.extractTokenFromHeader none = none ∧
    (∀ h t, AuthService.extractTokenFromHeader (some h) = some t ↔
      splitOnChar ' ' h.toList = ["Bearer".toList, t.toList]) ∧
    AuthService.extractTokenFromHeader (some "Bearer") = none ∧
    AuthService.extractTokenFromHeader (some "Basic abc") = none ∧
    AuthService.extractTokenFromHeader (some "Bearer a b") = none ∧
    AuthService.extractTokenFromHeader (some " Bearer x") = none ∧
    AuthService.extractTokenFromHeader (some "Bearer x ") = none := by
  refine ⟨rfl, ?_, by decide, by decide, by decide, by decide, by decide⟩
  intro h t
  by_cases hempty : h = ""
  · subst hempty
    simp only [AuthService.extractTokenFromHeader, if_pos rfl]
    constructor
    · intro hc; exact absurd hc (by simp)
    · intro hc
      have : splitOnChar ' ' ("" : String).toList = [[]] := rfl
      rw [this] at hc
      exact absurd hc (by simp)
  · simp only [AuthService.extractTokenFromHeader, if_neg hempty]
    rcases hsp : splitOnChar ' ' h.toList with - | ⟨a, - | ⟨b, - | ⟨c, rest⟩⟩⟩
    · simp
    · simp
    · constructor
      · intro hc
        have hc2 : (if a = "Bearer".toList then some (String.mk b) else none) =
            some t := hc
        by_cases hB : a = "Bearer".toList
        · rw [if_pos hB] at hc2
          have h2 := Option.some.inj hc2
          rw [hB, ← h2]
          rfl
        · rw [if_neg hB] at hc2
          exact absurd hc2 (by simp)
      · intro hc
        obtain ⟨ha, hb⟩ : a = "Bearer".toList ∧ b = t.toList := by simpa using hc
        show (if a = "Bearer".toList then some (String.mk b) else none) = some t
        rw [if_pos ha, hb]
        rfl
    · simp

/-! ## Base64 (`btoa` / `atob` as used by `AuthService.hashPassword` and
`AuthService.verifyPassword`) -/

/-- The base64 alphabet used by `btoa`/`atob`. -/
def base64Table : List Char :=
  "ABCDEFGHIJKLMNOPQRSTUVWXYZabcdefghijklmnopqrstuvwxyz0123456789+/".toList

/-- The character encoding a six-bit value. -/
def b64char (i : Nat) : Char := base64Table.getD i 'A'

/-- The six-bit value of a base64 character, `none` for a character
outside the alphabet (which makes `atob` throw). -/
def b64index (c : Char) : Option Nat := base64Table.findIdx? (· == c)

/-- The four base64 characters encoding a full three-byte group. -/
def encodeTriple (a b c : Nat) : List Char :=
  [b64char (a / 4), b64char (a % 4 * 16 + b / 16),
   b64char (b % 16 * 4 + c / 64), b64char (c % 64)]

/-- JavaScript `btoa` on a byte sequence: three-byte groups, with the one- and
two-byte tails padded with `'='`. -/
def btoaBytes : List Nat → List Char
  | [] => []
  | [a] => [b64char (a / 4), b64char (a % 4 * 16), '=', '=']
  | [a, b] => [b64char (a / 4), b64char (a % 4 * 16 + b / 16), b64char (b % 16 * 4), '=']
  | a :: b :: c :: rest => encodeTriple a b c ++ btoaBytes rest

/-- The call `btoa(String.fromCharCode(...bytes))`. -/
def btoa (bytes : List Nat) : String := String.mk (btoaBytes bytes)

/-- Decoding of a padding-stripped base64 character sequence in four-char
groups, with the two- and three-char tails producing one and two bytes;
`none` (a thrown `InvalidCharacterError`) for an alphabet violation or a
leftover length of one. -/
def decodeQuads : List Char → Option (List Nat)
  | [] => some []
  | [_] => none
  | [c1, c2] => do
    let s1 ← b64index c1
    let s2 ← b64index c2
    pure [s1 * 4 + s2 / 16]
  | [c1, c2, c3] => do
    let s1 ← b64index c1
    let s2 ← b64index c2
    let s3 ← b64index c3
    pure [s1 * 4 + s2 / 16, s2 % 16 * 16 + s3 / 4]
  | c1 :: c2 :: c3 :: c4 :: rest => do
    let s1 ← b64index c1
    let s2 ← b64index c2
    let s3 ← b64index c3
    let s4 ← b64index c4
    let tail ← decodeQuads rest
    pure ([s1 * 4 + s2 / 16, s2 % 16 * 16 + s3 / 4, s3 % 4 * 64 + s4] ++ tail)

/-- Strip the at-most-two trailing `'='` padding characters. -/
def stripPad (s : List Char) : List Char :=
  match s.reverse with
  | '=' :: '=' :: t => t.reverse
  | '=' :: t => t.reverse
  | _ => s

/-- JavaScript `atob`: strip padding, then decode in four-character groups. -/
def atob (s : String) : Option (List Nat) := decodeQuads (stripPad s.toList)

theorem b64index_b64char : ∀ i, i < 64 → b64index (b64char i) = some i := by
  decide

theorem b64char_ne_pad : ∀ i, i < 64 → b64char i ≠ '=' := by
  decide

/-- Bytes below 256 encode without padding and without `'='` anywhere when
the length is a multiple of three. -/
theorem pad_not_in_btoaBytes :
    ∀ (n : Nat) (bytes : List Nat), bytes.length ≤ n →
      bytes.length % 3 = 0 → (∀ x ∈ bytes, x < 256) →
      '=' ∉ btoaBytes bytes := by
  intro n
  induction n with
  | zero =>
    intro bytes hlen _ _
    have : bytes = [] := List.eq_nil_of_length_eq_zero (by omega)
    subst this
    simp [btoaBytes]
  | succ n ih =>
    intro bytes hlen hmod hbound
    match bytes with
    | [] => simp [btoaBytes]
    | [a] => simp at hmod
    | [a, b] => simp at hmod
    | a :: b :: c :: rest =>
      have ha : a < 256 := hbound a (by simp)
      have hb : b < 256 := hbound b (by simp)
      have hc : c < 256 := hbound c (by simp)
      have hrest : '=' ∉ btoaBytes rest := by
        refine ih rest ?_ ?_ ?_
        · have := hlen; simp at this ⊢; omega
        · have := hmod; simp at this ⊢; omega
        · intro x hx; exact hbound x (by simp [hx])
      show '=' ∉ encodeTriple a b c ++ btoaBytes rest
      intro hmem
      rcases List.mem_append.mp hmem with hm | hm
      · unfold encodeTriple at hm
        simp only [List.mem_cons, List.not_mem_nil, or_false] at hm
        rcases hm with h | h | h | h <;>
          exact absurd h.symm (b64char_ne_pad _ (by omega))
      · exact hrest hm

theorem stripPad_eq_self {s : List Char} (h : '=' ∉ s) : stripPad s = s := by
  unfold stripPad
  split
  · rename_i t heq
    exfalso
    exact h (by rw [← List.mem_reverse, heq]; simp)
  · rename_i t heq
    exfalso
    exact h (by rw [← List.mem_reverse, heq]; simp)
  · rfl

theorem decodeQuads_btoaBytes :
    ∀ (n : Nat) (bytes : List Nat), bytes.length ≤ n →
      bytes.length % 3 = 0 → (∀ x ∈ bytes, x < 256) →
      decodeQuads (btoaBytes bytes) = some bytes := by
  intro n
  induction n with
  | zero =>
    intro bytes hlen _ _
    have : bytes = [] := List.eq_nil_of_length_eq_zero (by omega)
    subst this
    rfl
  | succ n ih =>
    intro bytes hlen hmod hbound
    match bytes with
    | [] => rfl
    | [a] => simp at hmod
    | [a, b] => simp at hmod
    | a :: b :: c :: rest =>
      have ha : a < 256 := hbound a (by simp)
      have hb : b < 256 := hbound b (by simp)
      have hc : c < 256 := hbound c (by simp)
      have ihr : decodeQuads (btoaBytes rest) = some rest := by
        refine ih rest ?_ ?_ ?_
        · have := hlen; simp at this ⊢; omega
        · have := hmod; simp at this ⊢; omega
        · intro x hx; exact hbound x (by simp [hx])
      have h1 : b64index (b64char (a / 4)) = some (a / 4) :=
        b64index_b64char _ (by omega)
      have h2 : b64index (b64char (a % 4 * 16 + b / 16)) =
          some (a % 4 * 16 + b / 16) := b64index_b64char _ (by omega)
      have h3 : b64index (b64char (b % 16 * 4 + c / 64)) =
          some (b % 16 * 4 + c / 64) := b64index_b64char _ (by omega)
      have h4 : b64index (b64char (c % 64)) = some (c % 64) :=
        b64index_b64char _ (by omega)
      show decodeQuads (b64char (a / 4) :: b64char (a % 4 * 16 + b / 16) ::
          b64char (b % 16 * 4 + c / 64) :: b64char (c % 64) :: btoaBytes rest) =
        some (a :: b :: c :: rest)
      rw [decodeQuads, h1, h2, h3, h4]
      simp only [Option.bind_eq_bind, Option.some_bind, ihr]
      show some _ = some (a :: b :: c :: rest)
      congr 1
      show _ :: _ :: _ :: rest = a :: b :: c :: rest
      congr 1
      · omega
      congr 1
      · omega
      congr 1
      omega

theorem atob_btoa (bytes : List Nat) (hmod : bytes.length % 3 = 0)
    (hbound : ∀ x ∈ bytes, x < 256) : atob (btoa bytes) = some bytes := by
  unfold atob btoa
  rw [show (String.mk (btoaBytes bytes)).toList = btoaBytes bytes from rfl,
    stripPad_eq_self (pad_not_in_btoaBytes bytes.length bytes (le_refl _) hmod hbound)]
  exact decodeQuads_btoaBytes bytes.length bytes (le_refl _) hmod hbound

theorem btoaBytes_length :
    ∀ (n : Nat) (bytes : List Nat), bytes.length ≤ n →
      bytes.length % 3 = 0 →
      (btoaBytes bytes).length = 4 * (bytes.length / 3) := by
  intro n
  induction n with
  | zero =>
    intro bytes hlen _
    have : bytes = [] := List.eq_nil_of_length_eq_zero (by omega)
    subst this
    rfl
  | succ n ih =>
    intro bytes hlen hmod
    match bytes with
    | [] => rfl
    | [a] => simp at hmod
    | [a, b] => simp at hmod
    | a :: b :: c :: rest =>
      have ihr : (btoaBytes rest).length = 4 * (rest.length / 3) := by
        refine ih rest ?_ ?_
        · have := hlen; simp at this ⊢; omega
        · have := hmod; simp at this ⊢; omega
      show (encodeTriple a b c ++ btoaBytes rest).length = _
      rw [List.length_append, ihr]
      have he : (encodeTriple a b c).length = 4 := rfl
      have hlen3 : (a :: b :: c :: rest).length = rest.length + 3 := by simp
      have hm : rest.length % 3 = 0 := by
        have := hmod; simp at this ⊢; omega
      rw [he, hlen3]
      omega

/-! ## Password hashing (`AuthService.hashPassword`,
`AuthService.verifyPassword`, `AuthService.compareArrays`).  The
PBKDF2-SHA256 derivation (100,000 iterations, 256-bit output) is performed
by the WebCrypto `crypto.subtle.deriveBits` primitive; it is abstracted
here as a function `kdf` from the password and the salt to the derived
bytes, with the 32-byte output length taken as a hypothesis where
needed. -/

/-- Source `AuthService.compareArrays`: length check, then an OR-accumulated XOR
over the byte pairs, equal exactly when the accumulator ends at zero. -/
def AuthService.compareArrays (a b : List Nat) : Bool :=
  if a.length ≠ b.length then false
  else ((a.zip b).foldl (fun acc p => acc ||| (p.1 ^^^ p.2)) 0) == 0

/-- Source `AuthService.hashPassword` with the randomly drawn 16-byte salt passed
explicitly: derive 32 bytes from the password and salt, concatenate
salt‖derivedKey, and base64-encode. -/
def AuthService.hashPassword (kdf : String → List Nat → List Nat)
    (salt : List Nat) (password : String) : String :=
  btoa (salt ++ kdf password salt)

/-- Source `AuthService.verifyPassword`: base64-decode the stored hash (any
decoding error is caught and yields `false`), split off the 16-byte salt,
re-derive, and compare in constant time. -/
def AuthService.verifyPassword (kdf : String → List Nat → List Nat)
    (password hashedPassword : String) : Bool :=
  match atob hashedPassword with
  | none => false
  | some combined =>
    AuthService.compareArrays (combined.drop 16) (kdf password (combined.take 16))

theorem nat_lor_eq_zero_iff (a b : Nat) : a ||| b = 0 ↔ a = 0 ∧ b = 0 := by
  constructor
  · intro h
    constructor
    · apply Nat.eq_of_testBit_eq
      intro k
      have := congrArg (fun x => Nat.testBit x k) h
      simp [Nat.testBit_lor] at this
      simp [this.1]
    · apply Nat.eq_of_testBit_eq
      intro k
      have := congrArg (fun x => Nat.testBit x k) h
      simp [Nat.testBit_lor] at this
      simp [this.2]
  · rintro ⟨rfl, rfl⟩
    rfl

theorem foldl_lor_eq_zero (l : List Nat) (acc : Nat) :
    l.foldl (fun x y => x ||| y) acc = 0 ↔ acc = 0 ∧ ∀ x ∈ l, x = 0 := by
  induction l generalizing acc with
  | nil => simp
  | cons x xs ih =>
    rw [List.foldl_cons, ih, nat_lor_eq_zero_iff]
    constructor
    · rintro ⟨⟨h1, h2⟩, h3⟩
      exact ⟨h1, by simpa using And.intro h2 h3⟩
    · rintro ⟨h1, h2⟩
      simp at h2
      exact ⟨⟨h1, h2.1⟩, h2.2⟩

theorem zip_forall_eq_iff :
    ∀ (a b : List Nat), a.length = b.length →
      ((∀ p ∈ a.zip b, p.1 = p.2) ↔ a = b) := by
  intro a
  induction a with
  | nil =>
    intro b hb
    have : b = [] := List.eq_nil_of_length_eq_zero (by simp at hb; omega)
    subst this
    simp
  | cons x xs ih =>
    intro b hb
    match b with
    | [] => simp at hb
    | y :: ys =>
      have hxy := ih ys (by simpa using hb)
      simp only [List.zip_cons_cons, List.mem_cons]
      constructor
      · intro hall
        have h1 : x = y := hall (x, y) (Or.inl rfl)
        have h2 : xs = ys := hxy.mp (fun p hp => hall p (Or.inr hp))
        rw [h1, h2]
      · intro heq p hp
        have h1 : x = y ∧ xs = ys := by simpa using heq
        rcases hp with hp | hp
        · rw [hp]; exact h1.1
        · exact (hxy.mpr h1.2) p hp

theorem compareArrays_eq_iff (a b : List Nat) :
    AuthService.compareArrays a b = true ↔ a = b := by
  unfold AuthService.compareArrays
  by_cases hlen : a.length = b.length
  · rw [if_neg (by simpa using hlen)]
    have hfold : ((a.zip b).foldl (fun acc p => acc ||| (p.1 ^^^ p.2)) 0) =
        (((a.zip b).map (fun p => p.1 ^^^ p.2)).foldl (fun x y => x ||| y) 0) := by
      rw [List.foldl_map]
    rw [beq_iff_eq, hfold, foldl_lor_eq_zero]
    simp only [List.mem_map, true_and]
    constructor
    · intro hz
      refine (zip_forall_eq_iff a b hlen).mp ?_
      intro p hp
      exact Nat.xor_eq_zero.mp (hz _ ⟨p, hp, rfl⟩)
    · intro heq x hx
      obtain ⟨p, hp, hpx⟩ := hx
      rw [← hpx]
      exact Nat.xor_eq_zero.mpr ((zip_forall_eq_iff a b hlen).mpr heq p hp)
  · rw [if_pos (by simpa using hlen)]
    constructor
    · intro hc; exact absurd hc (by simp)
    · intro heq; exact absurd (heq ▸ rfl) hlen

/-- C8: `verifyPassword` is a total boolean function.  An undecodable
hash yields `false`; a decoded hash whose stored-key part (everything
after the 16-byte salt) does not have the 32-byte derived-key length
yields `false`; with matching lengths the OR-accumulated XOR comparison
returns `true` exactly when every byte of the stored key equals the
re-derived key. -/
theorem authService_verifyPassword_total_spec
    (kdf : String → List Nat → List Nat)
    (hk : ∀ pw s, (kdf pw s).length = 32) :
    (∀ p h, atob h = none → AuthService.verifyPassword kdf p h = false) ∧
    (∀ p h combined, atob h = some combined →
      (combined.drop 16).length ≠ 32 →
      AuthService.verifyPassword kdf p h = false) ∧
    (∀ p h combined, atob h = some combined →
      (AuthService.verifyPassword kdf p h = true ↔
        combined.drop 16 = kdf p (combined.take 16))) := by
  refine ⟨?_, ?_, ?_⟩
  · intro p h hnone
    unfold AuthService.verifyPassword
    rw [hnone]
  · intro p h combined hsome hlen
    unfold AuthService.verifyPassword
    rw [hsome]
    show AuthService.compareArrays (combined.drop 16)
      (kdf p (combined.take 16)) = false
    unfold AuthService.compareArrays
    rw [if_pos (by rw [hk p (combined.take 16)]; simpa using hlen)]
  · intro p h combined hsome
    unfold AuthService.verifyPassword
    rw [hsome]
    exact compareArrays_eq_iff _ _

/-- Closed-form instances: a hash that is not valid base64 is rejected
without an exception, and a decodable hash of the wrong length is
rejected, under the all-zero model key-derivation function. -/
theorem authService_verifyPassword_total_spec_witness :
    AuthService.verifyPassword (fun _ _ => List.replicate 32 0) "pw" "!" = false ∧
    AuthService.verifyPassword (fun _ _ => List.replicate 32 0) "pw" "AAAA" = false := by
  constructor
  · exact (authService_verifyPassword_total_spec _
      (fun _ _ => List.length_replicate 32 0)).1 "pw" "!" (by decide)
  · exact (authService_verifyPassword_total_spec _
      (fun _ _ => List.length_replicate 32 0)).2.1 "pw" "AAAA" [0, 0, 0]
      (by decide) (by decide)

/-- C4: with the same salt, the hash verifies; with two distinct 16-byte
salts, the two hashes are distinct strings of the same length (64 base64
characters) and both verify for the same password. -/
theorem authService_hashPassword_roundtrip_spec
    (kdf : String → List Nat → List Nat) (p : String) (salt1 salt2 : List Nat)
    (hk : ∀ pw s, (kdf pw s).length = 32 ∧ ∀ x ∈ kdf pw s, x < 256)
    (h1len : salt1.length = 16) (h1b : ∀ x ∈ salt1, x < 256)
    (h2len : salt2.length = 16) (h2b : ∀ x ∈ salt2, x < 256)
    (hne : salt1 ≠ salt2) :
    AuthService.verifyPassword kdf p (AuthService.hashPassword kdf salt1 p) = true ∧
    AuthService.verifyPassword kdf p (AuthService.hashPassword kdf salt2 p) = true ∧
    AuthService.hashPassword kdf salt1 p ≠ AuthService.hashPassword kdf salt2 p ∧
    (AuthService.hashPassword kdf salt1 p).length = 64 ∧
    (AuthService.hashPassword kdf salt2 p).length = 64 := by
  have hmod : ∀ (salt : List Nat), salt.length = 16 →
      (salt ++ kdf p salt).length % 3 = 0 := by
    intro salt hlen
    rw [List.length_append, hlen, (hk p salt).1]
  have hbound : ∀ (salt : List Nat), (∀ x ∈ salt, x < 256) →
      ∀ x ∈ salt ++ kdf p salt, x < 256 := by
    intro salt hb x hx
    rcases List.mem_append.mp hx with hm | hm
    · exact hb x hm
    · exact (hk p salt).2 x hm
  have hdecode : ∀ (salt : List Nat), salt.length = 16 → (∀ x ∈ salt, x < 256) →
      atob (AuthService.hashPassword kdf salt p) = some (salt ++ kdf p salt) := by
    intro salt hlen hb
    exact atob_btoa _ (hmod salt hlen) (hbound salt hb)
  have hverify : ∀ (salt : List Nat), salt.length = 16 → (∀ x ∈ salt, x < 256) →
      AuthService.verifyPassword kdf p (AuthService.hashPassword kdf salt p) = true := by
    intro salt hlen hb
    unfold AuthService.verifyPassword
    rw [hdecode salt hlen hb]
    show AuthService.compareArrays ((salt ++ kdf p salt).drop 16)
      (kdf p ((salt ++ kdf p salt).take 16)) = true
    rw [List.take_left' hlen, List.drop_left' hlen]
    exact (compareArrays_eq_iff _ _).mpr rfl
  have hlen64 : ∀ (salt : List Nat), salt.length = 16 →
      (AuthService.hashPassword kdf salt p).length = 64 := by
    intro salt hlen
    show (btoaBytes (salt ++ kdf p salt)).length = 64
    rw [btoaBytes_length (salt ++ kdf p salt).length _ (le_refl _) (hmod salt hlen),
      List.length_append, hlen, (hk p salt).1]
  refine ⟨hverify salt1 h1len h1b, hverify salt2 h2len h2b, ?_,
    hlen64 salt1 h1len, hlen64 salt2 h2len⟩
  intro heq
  have e1 := hdecode salt1 h1len h1b
  have e2 := hdecode salt2 h2len h2b
  rw [heq, e2] at e1
  have hcomb := Option.some.inj e1
  apply hne
  calc salt1 = (salt1 ++ kdf p salt1).take 16 := (List.take_left' h1len).symm
    _ = (salt2 ++ kdf p salt2).take 16 := by rw [← hcomb]
    _ = salt2 := List.take_left' h2len

/-- Closed-form instance: under a constant model key-derivation function,
two concrete distinct salts yield distinct 64-character hashes that both
verify. -/
theorem authService_hashPassword_roundtrip_spec_witness :
    (AuthService.verifyPassword (fun _ _ => List.replicate 32 7) "password123"
        (AuthService.hashPassword (fun _ _ => List.replicate 32 7)
          (List.replicate 16 1) "password123") = true) ∧
    (AuthService.hashPassword (fun _ _ => List.replicate 32 7)
        (List.replicate 16 1) "password123" ≠
      AuthService.hashPassword (fun _ _ => List.replicate 32 7)
        (List.replicate 16 2) "password123") := by
  have h := authService_hashPassword_roundtrip_spec
    (fun _ _ => List.replicate 32 7)
    "password123" (List.replicate 16 1) (List.replicate 16 2)
    (fun _ _ => ⟨by simp, fun x hx => by rw [List.eq_of_mem_replicate hx]; omega⟩)
    (by simp) (fun x hx => by rw [List.eq_of_mem_replicate hx]; omega)
    (by simp) (fun x hx => by rw [List.eq_of_mem_replicate hx]; omega)
    (by decide)
  exact ⟨h.1, h.2.2.1⟩

/-! ## Tokens (`AuthService.generateToken`, `AuthService.verifyToken`).
The `jose` library performs the actual HS256 signing and verification; it
is abstracted as a deterministic signature function `hmac` of the secret
and the signed payload, with `jwtVerify` accepting exactly a matching
signature on an unexpired payload. -/

/-- The JWT payload of `src/types.ts`: `{sub, iat, exp}` (seconds). -/
structure JWTPayload where
  sub : String
  iat : Int
  exp : Int
deriving DecidableEq, Repr

/-- A serialized signed token: the payload (header and payload segments)
together with its signature segment. -/
structure SignedToken (σ : Type) where
  payload : JWTPayload
  sig : σ
deriving DecidableEq, Repr

/-- The `jose` `SignJWT.sign` contract: attach the HMAC of the payload
under the secret. -/
def signJWT {σ : Type} (hmac : String → JWTPayload → σ) (secret : String)
    (p : JWTPayload) : SignedToken σ :=
  ⟨p, hmac secret p⟩

/-- The `jose` `jwtVerify` contract: the payload is returned only when the
signature matches the secret and the `exp` claim lies in the future at
verification time `now` (seconds); otherwise the library throws, which
`AuthService.verifyToken` converts to `null`. -/
def jwtVerify {σ : Type} [DecidableEq σ] (hmac : String → JWTPayload → σ)
    (secret : String) (t : SignedToken σ) (now : Int) : Option JWTPayload :=
  if t.sig = hmac secret t.payload ∧ now < t.payload.exp then some t.payload
  else none

/-- Source `AuthService.generateToken(username)`: payload `{sub: username,
iat: floor(Date.now()/1000), exp: iat + 24*60*60}`, signed HS256 with the
service's secret (`nowMs` is `Date.now()`, nonnegative, so truncating
division is the floor). -/
def AuthService.generateToken {σ : Type} (hmac : String → JWTPayload → σ)
    (secret : String) (nowMs : Int) (username : String) : SignedToken σ :=
  signJWT hmac secret
    { sub := username, iat := nowMs / 1000, exp := nowMs / 1000 + 24 * 60 * 60 }

/-- Source `AuthService.verifyToken(token)`: return the verified payload, or
`null` when `jwtVerify` throws. -/
def AuthService.verifyToken {σ : Type} [DecidableEq σ]
    (hmac : String → JWTPayload → σ) (secret : String) (t : SignedToken σ)
    (now : Int) : Option JWTPayload :=
  jwtVerify hmac secret t now

/-- C5: verifying a freshly generated token with the same secret before
its expiry returns a payload whose `sub` is the subject and whose `exp`
is `iat + 86400` (the 24-hour TTL), with `iat = floor(nowMs/1000)`. -/
theorem authService_token_roundtrip_spec {σ : Type} [DecidableEq σ]
    (hmac : String → JWTPayload → σ) (secret : String) (nowMs verifyNow : Int)
    (s : String) (hexp : verifyNow < nowMs / 1000 + 86400) :
    ∃ payload,
      AuthService.verifyToken hmac secret
        (AuthService.generateToken hmac secret nowMs s) verifyNow = some payload ∧
      payload.sub = s ∧ payload.exp = payload.iat + 86400 ∧
      payload.iat = nowMs / 1000 := by
  refine ⟨{ sub := s, iat := nowMs / 1000, exp := nowMs / 1000 + 24 * 60 * 60 },
    ?_, rfl, by norm_num, rfl⟩
  unfold AuthService.verifyToken AuthService.generateToken jwtVerify signJWT
  rw [if_pos ⟨rfl, by norm_num; omega⟩]

/-- Closed-form instance at a concrete clock: a token issued at
`Date.now() = 1700000000000` verifies one second later with `sub` intact
and a 86400-second lifetime. -/
theorem authService_token_roundtrip_spec_witness :
    (1700000001 : Int) < 1700000000000 / 1000 + 86400 ∧
    ∃ payload,
      AuthService.verifyToken (fun _ _ => ()) "jwt-secret"
        (AuthService.generateToken (fun _ _ => ()) "jwt-secret"
          1700000000000 "alice") 1700000001 = some payload ∧
      payload.sub = "alice" ∧ payload.exp = payload.iat + 86400 ∧
      payload.iat = 1700000000000 / 1000 :=
  ⟨by norm_num,
   authService_token_roundtrip_spec (fun _ _ => ()) "jwt-secret" 1700000000000
     1700000001 "alice" (by norm_num)⟩

/-- Closed-form instance of the classifier characterization: a bare
timeout-named error is retryable under the Enhanced classifier. -/
theorem enhancedRetryService_isEmailRetryableError_spec_witness :
    EnhancedRetryService.isEmailRetryableError (some { name := "TimeoutError" }) =
      true := by
  rw [enhancedRetryService_isEmailRetryableError_spec.1]
  decide

/-- Closed-form instance of the header characterization: a well-formed
bearer header yields its token. -/
theorem authService_extractTokenFromHeader_spec_witness :
    AuthService.extractTokenFromHeader (some "Bearer abc123") = some "abc123" :=
  (authService_extractTokenFromHeader_spec.2.1 "Bearer abc123" "abc123").mpr
    (by decide)
